import Mathlib

/-!
Verification of the codec (parser) registry, generic resolver, factory builder
and enum-codec policy of `disnake-ext-components`
(`src/disnake/ext/components/impl/parser/base.py`,
`impl/factory.py`, `impl/parser/enum.py`).

Python runtime conventions embedded here:
* Python classes and `typing` special forms are identified by natural numbers.
  Two references to the same class object are identical (`is`), so `is` on
  classes coincides with equality of identifiers.
* A Python `dict` preserves insertion order; assigning to an existing key
  replaces the value in place (position kept); `setdefault` appends only when
  the key is absent.
* A raising Python function is embedded as `Except`.
-/

namespace Disnake

/-- A Python type expression: either a plain (non-parameterized) type object,
or a parameterized generic alias `origin[args...]` (e.g. `List[int]`,
`Union[int, str]`, where the origin of a `Union[...]` alias is the special
form `typing.Union`).  `typing.get_origin` returns `none` on a plain type and
the origin on an alias; `typing.get_args` returns the argument list. -/
inductive TypeExpr where
  | plain (t : Nat)
  | app (origin : Nat) (args : List TypeExpr)

mutual

/-- Boolean equality on type expressions. -/
def TypeExpr.beq : TypeExpr → TypeExpr → Bool
  | .plain a, .plain b => a == b
  | .app o1 a1, .app o2 a2 => o1 == o2 && TypeExpr.beqList a1 a2
  | _, _ => false

/-- Boolean equality on lists of type expressions. -/
def TypeExpr.beqList : List TypeExpr → List TypeExpr → Bool
  | [], [] => true
  | x :: xs, y :: ys => TypeExpr.beq x y && TypeExpr.beqList xs ys
  | _, _ => false

end

mutual

theorem TypeExpr.beq_iff : ∀ a b : TypeExpr, TypeExpr.beq a b = true ↔ a = b
  | .plain a, .plain b => by simp [TypeExpr.beq]
  | .plain _, .app _ _ => by simp [TypeExpr.beq]
  | .app _ _, .plain _ => by simp [TypeExpr.beq]
  | .app o1 a1, .app o2 a2 => by
      simp [TypeExpr.beq, TypeExpr.beqList_iff a1 a2]

theorem TypeExpr.beqList_iff : ∀ a b : List TypeExpr, TypeExpr.beqList a b = true ↔ a = b
  | [], [] => by simp [TypeExpr.beqList]
  | [], _ :: _ => by simp [TypeExpr.beqList]
  | _ :: _, [] => by simp [TypeExpr.beqList]
  | x :: xs, y :: ys => by
      simp [TypeExpr.beqList, TypeExpr.beq_iff x y, TypeExpr.beqList_iff xs ys]

end

instance : DecidableEq TypeExpr := fun a b =>
  decidable_of_iff (TypeExpr.beq a b = true) (TypeExpr.beq_iff a b)

instance {ε α : Type} [DecidableEq ε] [DecidableEq α] : DecidableEq (Except ε α)
  | .ok a, .ok b =>
      if h : a = b then .isTrue (by rw [h]) else
        .isFalse (fun he => h (Except.ok.inj he))
  | .error a, .error b =>
      if h : a = b then .isTrue (by rw [h]) else
        .isFalse (fun he => h (Except.error.inj he))
  | .ok _, .error _ => .isFalse (fun he => Except.noConfusion he)
  | .error _, .ok _ => .isFalse (fun he => Except.noConfusion he)

/-- The ambient Python class environment: which identifiers denote actual
classes (`typing.Union` is a special form, not a class), the `issubclass`
relation between classes, and the identifiers of the distinguished objects
used by `base.py` (`typing.Union`, `typing.Tuple`, `typing.Collection`,
`str`) and `enum.py` (`int`). -/
structure ClassEnv where
  isClass : Nat → Bool
  issub : Nat → Nat → Bool
  unionId : Nat
  tupleId : Nat
  collectionId : Nat
  strId : Nat
  intId : Nat

/-- The `issubclass` check on type expressions: only plain class objects can stand on
either side; a parameterized alias is not a class. -/
def ClassEnv.isClassE (env : ClassEnv) : TypeExpr → Bool
  | .plain t => env.isClass t
  | .app _ _ => false

/-- Subclass check on type expressions (both sides must be plain classes). -/
def ClassEnv.issubE (env : ClassEnv) : TypeExpr → TypeExpr → Bool
  | .plain a, .plain b => env.issub a b
  | _, _ => false

/-- First match in a Python association list (`dict` lookup). -/
def dictLookup {K V : Type} [DecidableEq K] : List (K × V) → K → Option V
  | [], _ => none
  | (k', v) :: rest, k => if k' = k then some v else dictLookup rest k

/-- Python `d[k] = v`: replace in place when the key is present (keeping its
position, hence the iteration order), else append. -/
def dictInsert {K V : Type} [DecidableEq K] : List (K × V) → K → V → List (K × V)
  | [], k, v => [(k, v)]
  | (k', v') :: rest, k, v =>
      if k' = k then (k', v) :: rest else (k', v') :: dictInsert rest k v

/-- Python `d.setdefault(k, v)`: insert only when the key is absent. -/
def dictSetdefault {K V : Type} [DecidableEq K] (d : List (K × V)) (k : K) (v : V) :
    List (K × V) :=
  match dictLookup d k with
  | some _ => d
  | none => d ++ [(k, v)]

/-- The global parser registry of `base.py`: `_PARSERS` maps a type to the
parser class registered for it, `_REV_PARSERS` maps a parser class to the
tuple of types it was registered for.  Parser classes are identified by
natural numbers. -/
structure Registry where
  parsers : List (TypeExpr × Nat)
  revParsers : List (Nat × List TypeExpr)
deriving DecidableEq

def emptyRegistry : Registry := ⟨[], []⟩

/-- Key normalization `typing.get_origin(type_) or type_` applied to a registration key: a
parameterized alias is replaced by its bare origin, a plain type is kept. -/
def normalize : TypeExpr → TypeExpr
  | .plain t => .plain t
  | .app o _ => .plain o

/-- The function `register_parser(parser, *types, force)` from `base.py`: normalize every
key to its origin; with `force`, assign the reverse-index entry and every
forward entry; without, `setdefault` both. -/
def registerParser (st : Registry) (parser : Nat) (types : List TypeExpr)
    (force : Bool) : Registry :=
  let types := types.map normalize
  if force then
    { revParsers := dictInsert st.revParsers parser types,
      parsers := types.foldl (fun d t => dictInsert d t parser) st.parsers }
  else
    { revParsers := dictSetdefault st.revParsers parser types,
      parsers := types.foldl (fun d t => dictSetdefault d t parser) st.parsers }

/-- Semantics of `issubclass(cls, tuple_of_keys)` as CPython evaluates it: keys are tried
in order; a hit returns `True`; a non-class on either side raises
`TypeError` (embedded as `Except.error`). -/
def tryIssubclass (env : ClassEnv) (cls : TypeExpr) :
    List TypeExpr → Except Unit Bool
  | [] => .ok false
  | k :: rest =>
      if env.isClassE cls && env.isClassE k then
        if env.issubE cls k then .ok true else tryIssubclass env cls rest
      else .error ()

/-- The helper `_issubclass` from `base.py`: try `issubclass`; on `TypeError` fall back
to an identity scan of the tuple (`cls is cls_`; identity of class objects is
equality of their identifiers). -/
def pyIssubclass (env : ClassEnv) (cls : TypeExpr) (keys : List TypeExpr) : Bool :=
  match tryIssubclass env cls keys with
  | .ok b => b
  | .error _ => keys.any (fun k => decide (k = cls))

/-- Errors raised by the resolver (`TypeError` carrying the offending type;
the constructor records which type the message names). -/
inductive PyErr where
  | noParserFor (t : TypeExpr)
  | unsupported (t : TypeExpr)
deriving DecidableEq

/-- The slow-path scan of `_get_parser_type`: walk `_REV_PARSERS` in
insertion (= registration) order and return the first parser class whose
registered keys are `_issubclass`-compatible with the request. -/
def revScan (env : ClassEnv) (t : TypeExpr) :
    List (Nat × List TypeExpr) → Option Nat
  | [] => none
  | (p, tys) :: rest =>
      if pyIssubclass env t tys then some p else revScan env t rest

/-- The function `_get_parser_type` from `base.py`: exact `_PARSERS` lookup first; on miss
scan the reverse index; on total miss raise `TypeError` naming the type. -/
def getParserType (env : ClassEnv) (st : Registry) (t : TypeExpr) :
    Except PyErr Nat :=
  match dictLookup st.parsers t with
  | some p => .ok p
  | none =>
      match revScan env t st.revParsers with
      | some p => .ok p
      | none => .error (.noParserFor t)

/-- The shape of a parser instance as constructed by the resolver:
`cls.default()` (which for the stock `Parser.default` classmethod is `cls()`
with no arguments), a composite instance `cls(*inner)` (union / tuple), or a
collection instance `cls(inner, collection_type=origin)`. -/
inductive ParserDesc where
  | defaultOf (cls : Nat)
  | composite (cls : Nat) (inner : List ParserDesc)
  | collection (cls : Nat) (inner : ParserDesc) (collectionType : Nat)

mutual

/-- Boolean equality on parser descriptions. -/
def ParserDesc.beq : ParserDesc → ParserDesc → Bool
  | .defaultOf a, .defaultOf b => a == b
  | .composite a xs, .composite b ys => a == b && ParserDesc.beqList xs ys
  | .collection a x ca, .collection b y cb =>
      a == b && ParserDesc.beq x y && ca == cb
  | _, _ => false

/-- Boolean equality on lists of parser descriptions. -/
def ParserDesc.beqList : List ParserDesc → List ParserDesc → Bool
  | [], [] => true
  | x :: xs, y :: ys => ParserDesc.beq x y && ParserDesc.beqList xs ys
  | _, _ => false

end

mutual

theorem ParserDesc.beqDesc_iff : ∀ a b : ParserDesc, ParserDesc.beq a b = true ↔ a = b
  | .defaultOf _, .defaultOf _ => by simp [ParserDesc.beq]
  | .defaultOf _, .composite _ _ => by simp [ParserDesc.beq]
  | .defaultOf _, .collection _ _ _ => by simp [ParserDesc.beq]
  | .composite _ _, .defaultOf _ => by simp [ParserDesc.beq]
  | .composite o1 a1, .composite o2 a2 => by
      simp [ParserDesc.beq, ParserDesc.beqDescList_iff a1 a2]
  | .composite _ _, .collection _ _ _ => by simp [ParserDesc.beq]
  | .collection _ _ _, .defaultOf _ => by simp [ParserDesc.beq]
  | .collection _ _ _, .composite _ _ => by simp [ParserDesc.beq]
  | .collection o1 x1 c1, .collection o2 x2 c2 => by
      simp [ParserDesc.beq, ParserDesc.beqDesc_iff x1 x2, and_assoc]

theorem ParserDesc.beqDescList_iff :
    ∀ a b : List ParserDesc, ParserDesc.beqList a b = true ↔ a = b
  | [], [] => by simp [ParserDesc.beqList]
  | [], _ :: _ => by simp [ParserDesc.beqList]
  | _ :: _, [] => by simp [ParserDesc.beqList]
  | x :: xs, y :: ys => by
      simp [ParserDesc.beqList, ParserDesc.beqDesc_iff x y, ParserDesc.beqDescList_iff xs ys]

end

instance : DecidableEq ParserDesc := fun a b =>
  decidable_of_iff (ParserDesc.beq a b = true) (ParserDesc.beqDesc_iff a b)

/-- The parser class an instance belongs to (`type(instance)`). -/
def ParserDesc.clsOf : ParserDesc → Nat
  | .defaultOf c => c
  | .composite c _ => c
  | .collection c _ _ => c

mutual

/-- The resolver `get_parser(type_)` from `base.py`.  A plain type resolves to
`_get_parser_type(type_).default()`.  A parameterized alias resolves its
origin's parser class, then dispatches: `typing.Union` origin builds the
parser class on the recursively resolved argument parsers, a tuple origin
likewise, a collection origin resolves the first argument (`str` when there
is no argument — for the empty-argument case the recursive
`get_parser(str)` call is unfolded to its plain-type branch so that the
recursion is structural), and any other shape raises `TypeError`. -/
def getParser (env : ClassEnv) (st : Registry) : TypeExpr → Except PyErr ParserDesc
  | .plain t =>
      match getParserType env st (.plain t) with
      | .error e => .error e
      | .ok cls => .ok (.defaultOf cls)
  | .app o args =>
      match getParserType env st (.plain o) with
      | .error e => .error e
      | .ok cls =>
          if o = env.unionId then
            match getParserListAux env st args with
            | .error e => .error e
            | .ok inner => .ok (.composite cls inner)
          else if env.issub o env.tupleId then
            match getParserListAux env st args with
            | .error e => .error e
            | .ok inner => .ok (.composite cls inner)
          else if env.issub o env.collectionId then
            match args with
            | [] =>
                match getParserType env st (.plain env.strId) with
                | .error e => .error e
                | .ok icls => .ok (.collection cls (.defaultOf icls) o)
            | a :: _ =>
                match getParser env st a with
                | .error e => .error e
                | .ok inner => .ok (.collection cls inner o)
          else .error (.unsupported (.app o args))

/-- Recursive resolution of a list of type arguments, in order
(`[get_parser(arg) for arg in type_args]`). -/
def getParserListAux (env : ClassEnv) (st : Registry) :
    List TypeExpr → Except PyErr (List ParserDesc)
  | [] => .ok []
  | t :: ts =>
      match getParser env st t with
      | .error e => .error e
      | .ok p =>
          match getParserListAux env st ts with
          | .error e => .error e
          | .ok ps => .ok (p :: ps)

end

/-! ## Factory builder (`impl/factory.py`)

Parser *instances* have object identity in Python: every constructor or
`default()` call yields a distinct object.  An instance is embedded as its
description paired with an allocation identifier; the builder threads a
fresh-identifier counter. -/

/-- A parser instance: an object identity plus the structural description of
the instance. -/
structure PInst where
  id : Nat
  desc : ParserDesc
deriving DecidableEq

/-- Method `Parser.default` is a classmethod returning `cls()`; invoked through an
*instance* (as `factory.py` does on the result of `get_parser`) it builds a
fresh, argumentless instance of that instance's class — dropping any inner
parsers the instance held. -/
def PInst.defaultMethod (p : PInst) (fresh : Nat) : PInst :=
  ⟨fresh, .defaultOf p.desc.clsOf⟩

/-- A field descriptor as `ComponentFactoryBuilder.add_field` consumes it:
an `attr.Attribute` with a name, an optional declared type and optional
explicit parser metadata. -/
structure Field where
  name : String
  type : Option TypeExpr
  parser : Option PInst

/-- Modelled from the spec: `fields.get_parser` (module
`disnake.ext.components.fields`, whose source is not included under `src/`)
reads the codec carried by the field descriptor — the spec's "optional
explicit codec override" which `add_field` "returns ... if the descriptor
carries one" — returning `None` when the field has no explicit codec. -/
def fieldsGetParser (f : Field) : Option PInst := f.parser

/-- The `ComponentFactoryBuilder` state: the mutable `parsers` dict plus the
fresh-identifier counter of the embedding. -/
structure Builder where
  parsers : List (String × PInst)
  nextId : Nat
deriving DecidableEq

/-- The method `ComponentFactoryBuilder.add_field(field)` from `factory.py`:
take the field's explicit parser if any; otherwise resolve
`parser_base.get_parser(field.type or str)` — a parser *instance* (allocated
identity `b.nextId`) — and call `.default()` on it (allocating
`b.nextId + 1`).  Either way assign `self.parsers[field.name] = parser` and
return `parser`. -/
def addField (env : ClassEnv) (st : Registry) (b : Builder) (f : Field) :
    Except PyErr (PInst × Builder) :=
  match fieldsGetParser f with
  | some parser =>
      .ok (parser, { b with parsers := dictInsert b.parsers f.name parser })
  | none =>
      let fieldType := f.type.getD (.plain env.strId)
      match getParser env st fieldType with
      | .error e => .error e
      | .ok desc =>
          let resolved : PInst := ⟨b.nextId, desc⟩
          let parser := resolved.defaultMethod (b.nextId + 1)
          .ok (parser,
            { parsers := dictInsert b.parsers f.name parser,
              nextId := b.nextId + 2 })

/-- The factory returned by `ComponentFactoryBuilder.build`: its `parsers`
attribute is `types.MappingProxyType(self.parsers)` — a read-only *live
view* of the builder's dict object, not a copy.  Reading the proxy when the
builder has since reached state `current` therefore yields exactly
`current.parsers`; the embedding records the view as that function of the
builder's current state. -/
structure BuiltFactory where
  proxiedParsers : Builder → List (String × PInst)

/-- The method `ComponentFactoryBuilder.build` from `factory.py`: wrap the live dict in
a mapping proxy (no copy). -/
def build (_b : Builder) : BuiltFactory :=
  ⟨fun current => current.parsers⟩

/-! ## Factory `loads` (`impl/factory.py`)

For the whole-object decode path, parser instances are embedded with their
behaviour: `loads` takes the interaction (source) and the raw string and
either returns a value or raises.  `await aio.eval_maybe_coro` makes
synchronous and suspending codecs uniform; both are embedded as the plain
result. -/

/-- A parser instance as used by `ComponentFactory.loads_param`. -/
structure RTParser (σ ε α : Type) where
  loads : σ → String → Except ε α

/-- Errors escaping `ComponentFactory.loads`: a `KeyError` from
`self.parsers[param]`, or the first error a field codec raised. -/
inductive LoadErr (ε : Type) where
  | keyError (param : String)
  | codec (e : ε)
deriving DecidableEq

/-- A built factory as `ComponentFactory.loads` uses it: the parser mapping
and the component constructor (`self.component(**kwargs)`), which receives
the keyword mapping assembled from the decoded fields. -/
structure RTFactory (σ ε α κ : Type) where
  parsers : List (String × RTParser σ ε α)
  component : List (String × α) → κ

/-- The method `ComponentFactory.loads_param` from `factory.py`: look the parser up in
`self.parsers` (a missing key raises `KeyError`), call its `loads` with the
interaction and value, and await the possibly-suspended result. -/
def RTFactory.loadsParam {σ ε α κ : Type} (fac : RTFactory σ ε α κ)
    (src : σ) (param : String) (value : String) : Except (LoadErr ε) α :=
  match dictLookup fac.parsers param with
  | none => .error (.keyError param)
  | some p =>
      match p.loads src value with
      | .ok v => .ok v
      | .error e => .error (.codec e)

/-- The keyword-argument dict comprehension of `ComponentFactory.loads`:
`{param: await self.loads_param(...) for param, value in params.items() if value}`.
Entries are visited in mapping order; an empty string is falsy and is
skipped; the first raising decode aborts the whole comprehension. -/
def loadsKwargs {σ ε α κ : Type} (fac : RTFactory σ ε α κ) (src : σ) :
    List (String × String) → Except (LoadErr ε) (List (String × α))
  | [] => .ok []
  | (param, value) :: rest =>
      if value = "" then loadsKwargs fac src rest
      else
        match fac.loadsParam src param value with
        | .error e => .error e
        | .ok v =>
            match loadsKwargs fac src rest with
            | .error e => .error e
            | .ok kw => .ok ((param, v) :: kw)

/-- The method `ComponentFactory.loads` from `factory.py`: build the keyword mapping,
then construct the component from it. -/
def RTFactory.loads {σ ε α κ : Type} (fac : RTFactory σ ε α κ) (src : σ)
    (params : List (String × String)) : Except (LoadErr ε) κ :=
  match loadsKwargs fac src params with
  | .error e => .error e
  | .ok kw => .ok (fac.component kw)

/-! ## Enum codec policy (`impl/parser/enum.py`) -/

/-- A Python enum or flag class as `_get_enum_type` inspects it: whether it
is a `disnake.flags.BaseFlags` subclass, its `_member_type_` attribute
(`none` embeds the attribute being the `object` sentinel), and the types of
its member values in iteration order (first member separated so that the
class is nonempty, as `next(iter(enum_class))` requires). -/
structure PyEnumClass where
  isFlag : Bool
  memberTypeAttr : Option Nat
  firstMemberType : Nat
  restMemberTypes : List Nat

/-- The function `_get_enum_type` from `enum.py`: flags store integers; an explicit
`_member_type_` wins; otherwise the type of the first member, provided every
other member's value has the same type; `None` when the value types are
heterogeneous. -/
def getEnumType (env : ClassEnv) (e : PyEnumClass) : Option Nat :=
  if e.isFlag then some env.intId
  else
    match e.memberTypeAttr with
    | some t => some t
    | none =>
        if e.restMemberTypes.all (fun t => t == e.firstMemberType) then
          some e.firstMemberType
        else none

/-- Errors `EnumParser.__init__` can raise: `ValueError` for flags stored by
name, `ValueError` for heterogeneous members stored by value, or an error
from resolving the inner value parser. -/
inductive EnumInitErr where
  | flagsByName
  | heterogeneousByValue
  | resolution (e : PyErr)
deriving DecidableEq

/-- The state `EnumParser.__init__` establishes: the `store_by_value`
policy, the selected value type, and the inner scalar parser resolved for
that type. -/
structure EnumParserData where
  storeByValue : Bool
  valueType : Nat
  valueParser : ParserDesc
deriving DecidableEq

/-- The constructor `EnumParser.__init__` from `enum.py`: compute the shared value type; a
flag with `store_by_value=False` raises; a class with no shared value type
and `store_by_value` not forced to `True` stores by name with `str` values;
a shared value type respects an explicit `store_by_value` and defaults it to
`issubclass(value_type, int)`; a class with no shared value type and
`store_by_value=True` raises.  Finally the inner parser for the selected
value type is resolved via `parser_base.get_parser`. -/
def enumParserInit (env : ClassEnv) (st : Registry) (e : PyEnumClass)
    (storeByValue : Option Bool) : Except EnumInitErr EnumParserData :=
  let valueType := getEnumType env e
  if e.isFlag && storeByValue == some false then .error .flagsByName
  else
    let policy : Except EnumInitErr (Bool × Nat) :=
      if valueType == none && storeByValue != some true then
        .ok (false, env.strId)
      else
        match valueType with
        | some vt =>
            .ok (match storeByValue with
                 | none => env.issub vt env.intId
                 | some b => b,
                 vt)
        | none => .error .heterogeneousByValue
    match policy with
    | .error er => .error er
    | .ok (sbv, vt) =>
        match getParser env st (.plain vt) with
        | .error pe => .error (.resolution pe)
        | .ok vp => .ok ⟨sbv, vt, vp⟩

/-- A non-parameterized type. -/
def TypeExpr.isBare : TypeExpr → Bool
  | .plain _ => true
  | .app _ _ => false

/-- Registry states reachable from the empty registry through
`register_parser` calls (the only code that writes `_PARSERS` and
`_REV_PARSERS`). -/
inductive Reachable : Registry → Prop
  | empty : Reachable emptyRegistry
  | step (st : Registry) (p : Nat) (tys : List TypeExpr) (force : Bool) :
      Reachable st → Reachable (registerParser st p tys force)

/-! ## Concrete test fixtures

A small concrete class environment and registry used to instantiate the
general theorems: `int = 0`, `str = 1`, `list = 2`, `set = 3`,
`typing.Tuple = 10`, `typing.Collection = 11`, `Base = 20`, `Derived = 21`
(a further subclass `22` of `Base`), `typing.Union = 100` (not a class);
parser classes `IntParser = 70`, `StrParser = 71`, `UnionParser = 72`,
`TupleParser = 73`, `CollectionParser = 74`. -/

def envW : ClassEnv where
  isClass := fun n => n != 100
  issub := fun a b =>
    a == b || (a == 2 && b == 11) || (a == 3 && b == 11) ||
      (a == 21 && b == 20) || (a == 22 && b == 20)
  unionId := 100
  tupleId := 10
  collectionId := 11
  strId := 1
  intId := 0

def stW : Registry :=
  registerParser
    (registerParser
      (registerParser
        (registerParser
          (registerParser emptyRegistry 70 [.plain 0] true)
          71 [.plain 1] true)
        72 [.plain 100] true)
      73 [.plain 10] true)
    74 [.plain 2] true

/-- The concrete factory for the C7/C8 witnesses: fields `a` and `b` use an
identity codec, field `k` uses a codec that always fails; `component`
returns the keyword mapping itself. -/
def facW : RTFactory Unit Unit String (List (String × String)) where
  parsers :=
    [("a", ⟨fun _ s => .ok s⟩), ("b", ⟨fun _ s => .ok s⟩),
     ("k", ⟨fun _ _ => .error ()⟩)]
  component := fun kw => kw

/-! ## Dictionary lemmas -/

theorem dictLookup_insert_self {K V : Type} [DecidableEq K]
    (d : List (K × V)) (k : K) (v : V) :
    dictLookup (dictInsert d k v) k = some v := by
  induction d with
  | nil => simp [dictInsert, dictLookup]
  | cons hd tl ih =>
      obtain ⟨k', v'⟩ := hd
      by_cases h : k' = k
      · simp [dictInsert, dictLookup, h]
      · simp [dictInsert, dictLookup, h, ih]

theorem dictLookup_insert_ne {K V : Type} [DecidableEq K]
    (d : List (K × V)) (k k' : K) (v : V) (h : k' ≠ k) :
    dictLookup (dictInsert d k v) k' = dictLookup d k' := by
  have h' : k ≠ k' := Ne.symm h
  induction d with
  | nil => simp [dictInsert, dictLookup, h']
  | cons hd tl ih =>
      obtain ⟨k'', v''⟩ := hd
      by_cases h2 : k'' = k
      · subst h2
        simp [dictInsert, dictLookup, h']
      · simp only [dictInsert, if_neg h2]
        by_cases h3 : k'' = k'
        · simp [dictLookup, h3]
        · simp [dictLookup, h3, ih]

theorem dictLookup_append {K V : Type} [DecidableEq K]
    (d d' : List (K × V)) (k : K) :
    dictLookup (d ++ d') k =
      match dictLookup d k with
      | some v => some v
      | none => dictLookup d' k := by
  induction d with
  | nil => simp [dictLookup]
  | cons hd tl ih =>
      obtain ⟨k', v'⟩ := hd
      by_cases h : k' = k
      · simp [dictLookup, h]
      · simp [dictLookup, h, ih]

theorem dictLookup_setdefault {K V : Type} [DecidableEq K]
    (d : List (K × V)) (t k : K) (v : V) :
    dictLookup (dictSetdefault d t v) k =
      match dictLookup d k with
      | some w => some w
      | none => if t = k then some v else none := by
  unfold dictSetdefault
  cases ht : dictLookup d t with
  | some w =>
      cases hk : dictLookup d k with
      | some w' => simp [hk]
      | none =>
          have hne : t ≠ k := by
            intro he
            rw [he, hk] at ht
            exact Option.noConfusion ht
          simp [hk, hne]
  | none =>
      rw [dictLookup_append]
      cases hk : dictLookup d k <;> simp [hk, dictLookup]

theorem dictSetdefault_present {K V : Type} [DecidableEq K]
    (d : List (K × V)) (t : K) (v w : V) (h : dictLookup d t = some w) :
    dictSetdefault d t v = d := by
  unfold dictSetdefault
  rw [h]

theorem dictLookup_foldl_insert {K V : Type} [DecidableEq K]
    (tys : List K) (d : List (K × V)) (p : V) (k : K) :
    dictLookup (tys.foldl (fun d t => dictInsert d t p) d) k =
      if k ∈ tys then some p else dictLookup d k := by
  induction tys generalizing d with
  | nil => simp
  | cons t ts ih =>
      simp only [List.foldl_cons, ih]
      by_cases hm : k ∈ ts
      · simp [hm]
      · by_cases he : t = k
        · subst he
          simp [hm, dictLookup_insert_self]
        · have hkt : k ≠ t := Ne.symm he
          have hnotin : k ∉ (t :: ts) := by
            simp [List.mem_cons, hkt, hm]
          simp [hm, hnotin, dictLookup_insert_ne d t k p hkt]

theorem dictLookup_foldl_setdefault {K V : Type} [DecidableEq K]
    (tys : List K) (d : List (K × V)) (p : V) (k : K) :
    dictLookup (tys.foldl (fun d t => dictSetdefault d t p) d) k =
      match dictLookup d k with
      | some w => some w
      | none => if k ∈ tys then some p else none := by
  induction tys generalizing d with
  | nil => cases h : dictLookup d k <;> simp [h]
  | cons t ts ih =>
      simp only [List.foldl_cons, ih, dictLookup_setdefault]
      cases h : dictLookup d k with
      | some w => simp
      | none =>
          by_cases he : t = k
          · subst he
            simp
          · have hkt : k ≠ t := Ne.symm he
            have hnotin : ¬ k ∈ (t :: ts) ↔ ¬ k ∈ ts := by
              simp [List.mem_cons, hkt]
            simp only [if_neg he]
            by_cases hm : k ∈ ts
            · simp [hm]
            · simp [hm, hnotin.mpr hm]

/-! ## C5 — registration force semantics -/

/-- Claim C5: `register(codec, *type_keys, force)`: with `force` the codec
overwrites the binding of every given (normalized) type key in the forward
map and the codec's own reverse-index entry; without `force` only unbound
keys are filled, and every already-bound forward key and every existing
reverse-index entry is left unchanged. -/
theorem C5_register_force_semantics :
    (∀ (st : Registry) (parser : Nat) (types : List TypeExpr) (k : TypeExpr),
      k ∈ types.map normalize →
        dictLookup (registerParser st parser types true).parsers k = some parser ∧
        dictLookup (registerParser st parser types true).revParsers parser =
          some (types.map normalize)) ∧
    (∀ (st : Registry) (parser : Nat) (types : List TypeExpr),
      (∀ (k : TypeExpr) (p : Nat), dictLookup st.parsers k = some p →
        dictLookup (registerParser st parser types false).parsers k = some p) ∧
      (∀ k : TypeExpr, k ∈ types.map normalize → dictLookup st.parsers k = none →
        dictLookup (registerParser st parser types false).parsers k = some parser) ∧
      (∀ (q : Nat) (tys : List TypeExpr), dictLookup st.revParsers q = some tys →
        dictLookup (registerParser st parser types false).revParsers q = some tys)) := by
  refine ⟨fun st parser types k hk => ⟨?_, ?_⟩, fun st parser types => ⟨?_, ?_, ?_⟩⟩
  · simp only [registerParser, if_true]
    rw [dictLookup_foldl_insert]
    simp [hk]
  · simp only [registerParser, if_true]
    exact dictLookup_insert_self ..
  · intro k p hp
    simp only [registerParser, Bool.false_eq_true, if_false]
    rw [dictLookup_foldl_setdefault, hp]
  · intro k hk hnone
    simp only [registerParser, Bool.false_eq_true, if_false]
    rw [dictLookup_foldl_setdefault, hnone]
    simp [hk]
  · intro q tys htys
    simp only [registerParser, Bool.false_eq_true, if_false]
    rw [dictLookup_setdefault, htys]

/-- Witness for C5 at concrete inputs: forcing re-registration of parser `80`
for `int` overwrites the binding, while a non-forcing registration of parser
`81` leaves `int` bound to `70` but fills the unbound key `face = 30`, and
keeps parser `70`'s reverse entry. -/
theorem C5_register_force_semantics_witness :
    dictLookup (registerParser stW 80 [.plain 0] true).parsers (.plain 0) = some 80 ∧
    dictLookup (registerParser stW 81 [.plain 0, .plain 30] false).parsers (.plain 0) =
      some 70 ∧
    dictLookup (registerParser stW 81 [.plain 0, .plain 30] false).parsers (.plain 30) =
      some 81 ∧
    dictLookup (registerParser stW 81 [.plain 0, .plain 30] false).revParsers 70 =
      some [.plain 0] :=
  ⟨(C5_register_force_semantics.1 stW 80 [.plain 0] (.plain 0) (by decide)).1,
   (C5_register_force_semantics.2 stW 81 [.plain 0, .plain 30]).1 (.plain 0) 70
     (by decide),
   (C5_register_force_semantics.2 stW 81 [.plain 0, .plain 30]).2.1 (.plain 30)
     (by decide) (by decide),
   (C5_register_force_semantics.2 stW 81 [.plain 0, .plain 30]).2.2 70 [.plain 0]
     (by decide)⟩

/-! ## C10 — registration keys are normalized to bare origins -/

theorem mem_dictInsert {K V : Type} [DecidableEq K]
    (d : List (K × V)) (k : K) (v : V) (kv : K × V)
    (h : kv ∈ dictInsert d k v) : kv ∈ d ∨ kv = (k, v) := by
  induction d with
  | nil => simpa [dictInsert] using h
  | cons hd tl ih =>
      obtain ⟨k', v'⟩ := hd
      by_cases he : k' = k
      · subst he
        simp [dictInsert] at h
        rcases h with h1 | h1
        · exact .inr (by simp [h1])
        · exact .inl (List.mem_cons_of_mem _ h1)
      · simp [dictInsert, he] at h
        rcases h with h1 | h1
        · exact .inl (by simp [h1])
        · rcases ih h1 with h2 | h2
          · exact .inl (List.mem_cons_of_mem _ h2)
          · exact .inr h2

theorem mem_dictSetdefault {K V : Type} [DecidableEq K]
    (d : List (K × V)) (k : K) (v : V) (kv : K × V)
    (h : kv ∈ dictSetdefault d k v) : kv ∈ d ∨ kv = (k, v) := by
  cases ht : dictLookup d k with
  | some w =>
      unfold dictSetdefault at h
      rw [ht] at h
      exact .inl h
  | none =>
      unfold dictSetdefault at h
      rw [ht] at h
      rcases List.mem_append.mp h with h' | h'
      · exact .inl h'
      · exact .inr (by simpa using h')

theorem mem_foldl_dictInsert {K V : Type} [DecidableEq K]
    (tys : List K) (d : List (K × V)) (p : V) (kv : K × V)
    (h : kv ∈ tys.foldl (fun d t => dictInsert d t p) d) :
    kv ∈ d ∨ kv.1 ∈ tys := by
  induction tys generalizing d with
  | nil => exact .inl h
  | cons t ts ih =>
      rcases ih (dictInsert d t p) (by simpa using h) with h' | h'
      · rcases mem_dictInsert d t p kv h' with h'' | h''
        · exact .inl h''
        · exact .inr (by simp [h''])
      · exact .inr (List.mem_cons_of_mem _ h')

theorem mem_foldl_dictSetdefault {K V : Type} [DecidableEq K]
    (tys : List K) (d : List (K × V)) (p : V) (kv : K × V)
    (h : kv ∈ tys.foldl (fun d t => dictSetdefault d t p) d) :
    kv ∈ d ∨ kv.1 ∈ tys := by
  induction tys generalizing d with
  | nil => exact .inl h
  | cons t ts ih =>
      rcases ih (dictSetdefault d t p) (by simpa using h) with h' | h'
      · rcases mem_dictSetdefault d t p kv h' with h'' | h''
        · exact .inl h''
        · exact .inr (by simp [h''])
      · exact .inr (List.mem_cons_of_mem _ h')

theorem normalize_isBare (t : TypeExpr) : (normalize t).isBare = true := by
  cases t <;> rfl

/-- Claim C10: registration keys are normalized to their generic origin: a
parameterized alias is stored under its bare origin (the arguments play no
role), every key in the forward map and the reverse index of any reachable
registry is non-parameterized, and an exact lookup of the bare origin after
registering a parameterized alias finds the codec. -/
theorem C10_registration_normalizes_keys :
    (∀ (o : Nat) (args : List TypeExpr), normalize (.app o args) = .plain o) ∧
    (∀ (st : Registry) (p o : Nat) (args args' : List TypeExpr)
        (rest : List TypeExpr) (force : Bool),
      registerParser st p (.app o args :: rest) force =
        registerParser st p (.app o args' :: rest) force) ∧
    (∀ st : Registry, Reachable st →
      (∀ kv ∈ st.parsers, kv.1.isBare = true) ∧
      (∀ pe ∈ st.revParsers, ∀ t ∈ pe.2, t.isBare = true)) ∧
    (∀ (st : Registry) (p o : Nat) (args : List TypeExpr),
      dictLookup (registerParser st p [.app o args] true).parsers (.plain o) =
        some p) := by
  refine ⟨fun o args => rfl, fun st p o args args' rest force => ?_, ?_, ?_⟩
  · simp [registerParser, normalize]
  · intro st hst
    induction hst with
    | empty => exact ⟨by simp [emptyRegistry], by simp [emptyRegistry]⟩
    | step st p tys force _ ih =>
        obtain ⟨ihf, ihr⟩ := ih
        constructor
        · intro kv hkv
          cases force with
          | true =>
              rcases mem_foldl_dictInsert _ _ _ kv hkv with h | h
              · exact ihf kv h
              · rcases List.mem_map.mp h with ⟨t, _, ht⟩
                exact ht ▸ normalize_isBare t
          | false =>
              rcases mem_foldl_dictSetdefault _ _ _ kv hkv with h | h
              · exact ihf kv h
              · rcases List.mem_map.mp h with ⟨t, _, ht⟩
                exact ht ▸ normalize_isBare t
        · intro pe hpe t ht
          cases force with
          | true =>
              rcases mem_dictInsert _ _ _ pe hpe with h | h
              · exact ihr pe h t ht
              · rw [h] at ht
                rcases List.mem_map.mp ht with ⟨t', _, ht'⟩
                exact ht' ▸ normalize_isBare t'
          | false =>
              rcases mem_dictSetdefault _ _ _ pe hpe with h | h
              · exact ihr pe h t ht
              · rw [h] at ht
                rcases List.mem_map.mp ht with ⟨t', _, ht'⟩
                exact ht' ▸ normalize_isBare t'
  · intro st p o args
    simp only [registerParser, if_true, List.map, normalize, List.foldl]
    exact dictLookup_insert_self ..

/-- Witness for C10: registering `TupleParser = 75` for the alias
`Tuple[int, ...]` (embedded `app 10 [plain 0]`) from `stW` stores the bare
key `tuple`; the reachable-state invariant instantiated at that registry
confirms every stored key is bare. -/
theorem C10_registration_normalizes_keys_witness :
    dictLookup (registerParser stW 75 [.app 10 [.plain 0]] true).parsers
      (.plain 10) = some 75 ∧
    (∀ kv ∈ (registerParser stW 75 [.app 10 [.plain 0]] true).parsers,
      kv.1.isBare = true) :=
  ⟨C10_registration_normalizes_keys.2.2.2 stW 75 10 [.plain 0],
   (C10_registration_normalizes_keys.2.2.1 _
      (.step _ 75 [.app 10 [.plain 0]] true
        (.step _ 74 [.plain 2] true
          (.step _ 73 [.plain 10] true
            (.step _ 72 [.plain 100] true
              (.step _ 71 [.plain 1] true
                (.step _ 70 [.plain 0] true .empty))))))).1⟩

/-! ## C1 — resolution precedence for non-generic requests -/

theorem revScan_all_false (env : ClassEnv) (t : TypeExpr)
    (l : List (Nat × List TypeExpr))
    (h : ∀ e ∈ l, pyIssubclass env t e.2 = false) :
    revScan env t l = none := by
  induction l with
  | nil => rfl
  | cons e rest ih =>
      obtain ⟨p, tys⟩ := e
      have h0 := h (p, tys) (List.mem_cons_self _ _)
      simp only [revScan, h0, Bool.false_eq_true, if_false]
      exact ih (fun e he => h e (List.mem_cons_of_mem _ he))

theorem revScan_first_match (env : ClassEnv) (t : TypeExpr)
    (pre post : List (Nat × List TypeExpr)) (p : Nat) (tys : List TypeExpr)
    (hpre : ∀ e ∈ pre, pyIssubclass env t e.2 = false)
    (hc : pyIssubclass env t tys = true) :
    revScan env t (pre ++ (p, tys) :: post) = some p := by
  induction pre with
  | nil => simp [revScan, hc]
  | cons e rest ih =>
      obtain ⟨q, tys'⟩ := e
      have h0 := hpre (q, tys') (List.mem_cons_self _ _)
      simp only [List.cons_append, revScan, h0, Bool.false_eq_true, if_false]
      exact ih (fun e he => hpre e (List.mem_cons_of_mem _ he))

/-- Claim C1: for a request with no generic arguments, resolution returns the
exact-key codec when one is registered; otherwise it scans the reverse index
in registration order and returns the first codec with a compatible
registered key; on total miss it raises an error naming the requested type.
In particular, after registering `X` for `Base` and then `Y` for a subclass
`Derived`, resolving `Derived` gives `Y` (exact match) and resolving any
other subclass of `Base` with no registration of its own gives `X`
(subclass fallback). -/
theorem C1_resolution_precedence :
    (∀ (env : ClassEnv) (st : Registry) (t : TypeExpr) (p : Nat),
      dictLookup st.parsers t = some p → getParserType env st t = .ok p) ∧
    (∀ (env : ClassEnv) (st : Registry) (t : TypeExpr) (p : Nat)
        (pre post : List (Nat × List TypeExpr)) (tys : List TypeExpr),
      dictLookup st.parsers t = none →
      st.revParsers = pre ++ (p, tys) :: post →
      (∀ e ∈ pre, pyIssubclass env t e.2 = false) →
      pyIssubclass env t tys = true →
      getParserType env st t = .ok p) ∧
    (∀ (env : ClassEnv) (st : Registry) (t : TypeExpr),
      dictLookup st.parsers t = none →
      (∀ e ∈ st.revParsers, pyIssubclass env t e.2 = false) →
      getParserType env st t = .error (.noParserFor t)) ∧
    (∀ (env : ClassEnv) (X Y Base Derived : Nat), X ≠ Y → Base ≠ Derived →
      getParserType env
        (registerParser (registerParser emptyRegistry X [.plain Base] true)
          Y [.plain Derived] true) (.plain Derived) = .ok Y ∧
      (∀ S : Nat, S ≠ Base → S ≠ Derived →
        env.isClass S = true → env.isClass Base = true → env.issub S Base = true →
        getParserType env
          (registerParser (registerParser emptyRegistry X [.plain Base] true)
            Y [.plain Derived] true) (.plain S) = .ok X)) := by
  refine ⟨?_, ?_, ?_, ?_⟩
  · intro env st t p hp
    simp [getParserType, hp]
  · intro env st t p pre post tys hmiss hrev hpre hc
    simp [getParserType, hmiss, hrev, revScan_first_match env t pre post p tys hpre hc]
  · intro env st t hmiss hall
    simp [getParserType, hmiss, revScan_all_false env t st.revParsers hall]
  · intro env X Y Base Derived hXY hBD
    have hparsers :
        (registerParser (registerParser emptyRegistry X [.plain Base] true)
          Y [.plain Derived] true).parsers =
          [(.plain Base, X), (.plain Derived, Y)] := by
      simp [registerParser, emptyRegistry, normalize, dictInsert, hBD]
    have hrev :
        (registerParser (registerParser emptyRegistry X [.plain Base] true)
          Y [.plain Derived] true).revParsers =
          [(X, [TypeExpr.plain Base]), (Y, [TypeExpr.plain Derived])] := by
      simp [registerParser, emptyRegistry, normalize, dictInsert, hXY]
    constructor
    · have hBD' : TypeExpr.plain Base ≠ TypeExpr.plain Derived := by
        intro h
        exact hBD (TypeExpr.plain.inj h)
      simp [getParserType, hparsers, dictLookup, hBD']
    · intro S hSB hSD hclsS hclsB hsub
      have hBS : TypeExpr.plain Base ≠ TypeExpr.plain S := by
        intro h
        exact hSB (TypeExpr.plain.inj h).symm
      have hDS : TypeExpr.plain Derived ≠ TypeExpr.plain S := by
        intro h
        exact hSD (TypeExpr.plain.inj h).symm
      simp [getParserType, hparsers, hrev, dictLookup, hBS, hDS, revScan,
        pyIssubclass, tryIssubclass, ClassEnv.isClassE, ClassEnv.issubE,
        hclsS, hclsB, hsub]

/-- Witness for C1 at concrete inputs: in `stW` extended with `X = 80` for
`Base = 20` and then `Y = 81` for `Derived = 21` (a subclass of `Base` in
`envW`), resolving `Derived` yields `Y` and resolving the unregistered
subclass `22` of `Base` yields `X`; the exact-hit, scan and miss conjuncts
instantiated concretely. -/
theorem C1_resolution_precedence_witness :
    getParserType envW
      (registerParser (registerParser emptyRegistry 80 [.plain 20] true)
        81 [.plain 21] true) (.plain 21) = .ok 81 ∧
    getParserType envW
      (registerParser (registerParser emptyRegistry 80 [.plain 20] true)
        81 [.plain 21] true) (.plain 22) = .ok 80 ∧
    getParserType envW stW (.plain 0) = .ok 70 ∧
    getParserType envW ⟨[], [(70, [.plain 0])]⟩ (.plain 40) =
      .error (.noParserFor (.plain 40)) :=
  ⟨(C1_resolution_precedence.2.2.2 envW 80 81 20 21 (by decide) (by decide)).1,
   (C1_resolution_precedence.2.2.2 envW 80 81 20 21 (by decide) (by decide)).2
     22 (by decide) (by decide) (by decide) (by decide) (by decide),
   C1_resolution_precedence.1 envW stW (.plain 0) 70 (by decide),
   C1_resolution_precedence.2.2.1 envW ⟨[], [(70, [.plain 0])]⟩ (.plain 40)
     (by decide) (by decide)⟩

/-! ## C6 — homogeneous collection resolution -/

/-- Claim C6: for a type expression whose origin is a collection (and neither
`typing.Union` nor a tuple), the resolver resolves the element codec from the
first (and only) type argument — defaulting to `str` when there is no
argument, ignoring any further arguments — and constructs a collection codec
parameterized by the concrete collection shape (the requested origin). -/
theorem C6_collection_resolution (env : ClassEnv) (st : Registry) (o : Nat)
    (args : List TypeExpr) (cls : Nat)
    (hu : o ≠ env.unionId)
    (ht : env.issub o env.tupleId = false)
    (hc : env.issub o env.collectionId = true)
    (hcls : getParserType env st (.plain o) = .ok cls) :
    getParser env st (.app o args) =
      match getParser env st (args.headD (.plain env.strId)) with
      | .ok inner => .ok (.collection cls inner o)
      | .error e => .error e := by
  cases args with
  | nil =>
      simp only [getParser, hcls, hu, ht, hc, List.headD, if_neg hu,
        Bool.false_eq_true, if_false, if_true]
      cases h : getParserType env st (.plain env.strId) <;> simp [h]
  | cons a as =>
      simp only [getParser, hcls, hu, ht, hc, List.headD, if_neg hu,
        Bool.false_eq_true, if_false, if_true]
      cases h : getParser env st a <;> simp [h]

/-- Witness for C6: in the concrete fixtures, `list[int, str]`
(`app 2 [plain 0, plain 1]`) resolves to a collection codec over the *first*
argument's codec only, and `list` with no arguments (`app 2 []`) falls back
to the `str` codec; both are parameterized by the requested shape `list`. -/
theorem C6_collection_resolution_witness :
    getParser envW stW (.app 2 [.plain 0, .plain 1]) =
      .ok (.collection 74 (.defaultOf 70) 2) ∧
    getParser envW stW (.app 2 []) = .ok (.collection 74 (.defaultOf 71) 2) :=
  ⟨(C6_collection_resolution envW stW 2 [.plain 0, .plain 1] 74
      (by decide) (by decide) (by decide) (by decide)).trans rfl,
   (C6_collection_resolution envW stW 2 [] 74
      (by decide) (by decide) (by decide) (by decide)).trans rfl⟩

/-! ## C2/C3/C4 — builder behaviour -/

theorem dictInsert_idem {K V : Type} [DecidableEq K]
    (d : List (K × V)) (k : K) (v : V) :
    dictInsert (dictInsert d k v) k v = dictInsert d k v := by
  induction d with
  | nil => simp [dictInsert]
  | cons hd tl ih =>
      obtain ⟨k', v'⟩ := hd
      by_cases he : k' = k
      · subst he
        simp [dictInsert]
      · simp [dictInsert, he, ih]

/-- Claim C2, failing input: `add_field` records
`parser_base.get_parser(field_type).default()`, but `get_parser` already
returns a parser *instance*; `.default()` — a classmethod — therefore builds
a fresh argumentless instance of the composite's class.  For the field
`x : Union[int, str]` with no explicit codec the resolver constructs the
union composite over the `int` and `str` codecs, yet the recorded codec is a
bare `UnionParser()` holding no inner codecs, not that composite. -/
theorem C2_addfield_drops_composite :
    getParser envW stW (.app 100 [.plain 0, .plain 1]) =
      .ok (.composite 72 [.defaultOf 70, .defaultOf 71]) ∧
    addField envW stW ⟨[], 0⟩ ⟨"x", some (.app 100 [.plain 0, .plain 1]), none⟩ =
      .ok (⟨1, .defaultOf 72⟩, ⟨[("x", ⟨1, .defaultOf 72⟩)], 2⟩) ∧
    (ParserDesc.defaultOf 72) ≠ .composite 72 [.defaultOf 70, .defaultOf 71] :=
  ⟨rfl, rfl, by decide⟩

/-- Claim C3, counterexample: calling `add_field` twice with the same field
(name `x`, declared type `int`, no explicit codec) returns a *different*
parser instance the second time (fresh allocation `3` versus `1`) and
replaces the recorded binding with it, contradicting idempotence. -/
theorem C3_addfield_not_idempotent :
    addField envW stW ⟨[], 0⟩ ⟨"x", some (.plain 0), none⟩ =
      .ok (⟨1, .defaultOf 70⟩, ⟨[("x", ⟨1, .defaultOf 70⟩)], 2⟩) ∧
    addField envW stW ⟨[("x", ⟨1, .defaultOf 70⟩)], 2⟩ ⟨"x", some (.plain 0), none⟩ =
      .ok (⟨3, .defaultOf 70⟩, ⟨[("x", ⟨3, .defaultOf 70⟩)], 4⟩) ∧
    (⟨3, .defaultOf 70⟩ : PInst) ≠ ⟨1, .defaultOf 70⟩ ∧
    dictLookup [("x", (⟨3, .defaultOf 70⟩ : PInst))] "x" ≠
      some ⟨1, .defaultOf 70⟩ :=
  ⟨rfl, rfl, by decide, by decide⟩

/-- Claim C3, amended: `add_field` recomputes the codec on every call and
overwrites the binding.  When the field carries an explicit codec, a
repeated call returns that same codec object and leaves the builder
unchanged; when the codec is resolved from the declared type, a repeated
call returns a fresh instance distinct from the first and replaces the
recorded binding with it. -/
theorem C3_addfield_recompute (env : ClassEnv) (st : Registry) :
    (∀ (b : Builder) (f : Field) (p : PInst) (p1 p2 : PInst) (b1 b2 : Builder),
      fieldsGetParser f = some p →
      addField env st b f = .ok (p1, b1) →
      addField env st b1 f = .ok (p2, b2) →
      p1 = p ∧ p2 = p ∧ b2 = b1) ∧
    (∀ (b : Builder) (f : Field) (p1 p2 : PInst) (b1 b2 : Builder),
      fieldsGetParser f = none →
      addField env st b f = .ok (p1, b1) →
      addField env st b1 f = .ok (p2, b2) →
      p1 ≠ p2 ∧ dictLookup b2.parsers f.name = some p2) := by
  constructor
  · intro b f p p1 p2 b1 b2 hp h1 h2
    simp only [addField, hp] at h1 h2
    obtain ⟨hp1, hb1⟩ := Prod.mk.inj (Except.ok.inj h1)
    obtain ⟨hp2, hb2⟩ := Prod.mk.inj (Except.ok.inj h2)
    refine ⟨hp1.symm, hp2.symm, ?_⟩
    rw [← hb2, ← hb1]
    simp [dictInsert_idem]
  · intro b f p1 p2 b1 b2 hp h1 h2
    simp only [addField, hp] at h1 h2
    cases hg : getParser env st (f.type.getD (.plain env.strId)) with
    | error e => rw [hg] at h1; exact absurd h1 (by simp)
    | ok desc =>
        rw [hg] at h1 h2
        obtain ⟨hp1, hb1⟩ := Prod.mk.inj (Except.ok.inj h1)
        obtain ⟨hp2, hb2⟩ := Prod.mk.inj (Except.ok.inj h2)
        constructor
        · rw [← hp1, ← hp2, ← hb1]
          intro hcontra
          have : b.nextId + 1 = b.nextId + 2 + 1 := congrArg PInst.id hcontra
          omega
        · rw [← hb2, ← hp2]
          simp [dictLookup_insert_self]

/-- Witness for the amended C3: repeating `add_field` for a field with the
explicit codec `⟨60, IntParser⟩` returns it twice and leaves the builder
unchanged, while for the resolved-codec field of the counterexample the two
returned instances differ. -/
theorem C3_addfield_recompute_witness :
    ((⟨60, .defaultOf 70⟩ : PInst) = ⟨60, .defaultOf 70⟩ ∧
      (⟨60, .defaultOf 70⟩ : PInst) = ⟨60, .defaultOf 70⟩ ∧
      (⟨[("y", ⟨60, .defaultOf 70⟩)], 0⟩ : Builder) =
        ⟨[("y", ⟨60, .defaultOf 70⟩)], 0⟩) ∧
    ((⟨1, .defaultOf 70⟩ : PInst) ≠ ⟨3, .defaultOf 70⟩ ∧
      dictLookup ([("x", (⟨3, .defaultOf 70⟩ : PInst))] :
        List (String × PInst)) "x" = some ⟨3, .defaultOf 70⟩) :=
  ⟨(C3_addfield_recompute envW stW).1 ⟨[], 0⟩ ⟨"y", none, some ⟨60, .defaultOf 70⟩⟩
      ⟨60, .defaultOf 70⟩ ⟨60, .defaultOf 70⟩ ⟨60, .defaultOf 70⟩
      ⟨[("y", ⟨60, .defaultOf 70⟩)], 0⟩ ⟨[("y", ⟨60, .defaultOf 70⟩)], 0⟩
      rfl rfl rfl,
   (C3_addfield_recompute envW stW).2 ⟨[], 0⟩ ⟨"x", some (.plain 0), none⟩
      ⟨1, .defaultOf 70⟩ ⟨3, .defaultOf 70⟩
      ⟨[("x", ⟨1, .defaultOf 70⟩)], 2⟩ ⟨[("x", ⟨3, .defaultOf 70⟩)], 4⟩
      rfl rfl rfl⟩

/-- Claim C4, counterexample: `build` wraps the builder's *live* dict in a
`MappingProxyType` without copying, so an `add_field` call on the builder
after `build()` changes the mapping observable through the factory: the
field `b` added after `build` is visible through the factory's view, which
it was not at build time. -/
theorem C4_factory_view_mutates :
    addField envW stW ⟨[("a", ⟨50, .defaultOf 70⟩)], 0⟩
        ⟨"b", none, some ⟨51, .defaultOf 71⟩⟩ =
      .ok (⟨51, .defaultOf 71⟩,
        ⟨[("a", ⟨50, .defaultOf 70⟩), ("b", ⟨51, .defaultOf 71⟩)], 0⟩) ∧
    dictLookup ((build ⟨[("a", ⟨50, .defaultOf 70⟩)], 0⟩).proxiedParsers
      ⟨[("a", ⟨50, .defaultOf 70⟩), ("b", ⟨51, .defaultOf 71⟩)], 0⟩) "b" =
      some ⟨51, .defaultOf 71⟩ ∧
    dictLookup ((build ⟨[("a", ⟨50, .defaultOf 70⟩)], 0⟩).proxiedParsers
      ⟨[("a", ⟨50, .defaultOf 70⟩)], 0⟩) "b" = none ∧
    (build ⟨[("a", ⟨50, .defaultOf 70⟩)], 0⟩).proxiedParsers
        ⟨[("a", ⟨50, .defaultOf 70⟩), ("b", ⟨51, .defaultOf 71⟩)], 0⟩ ≠
      (build ⟨[("a", ⟨50, .defaultOf 70⟩)], 0⟩).proxiedParsers
        ⟨[("a", ⟨50, .defaultOf 70⟩)], 0⟩ :=
  ⟨rfl, rfl, rfl, by decide⟩

/-- Claim C4, amended: `build` seals nothing: the factory's parser mapping is
a read-only live view of the builder's dict, so it always equals the
builder's current bindings, and an `add_field` on the builder after `build`
is observable through the factory — the new binding appears in the view. -/
theorem C4_build_returns_live_view (env : ClassEnv) (st : Registry)
    (b : Builder) (f : Field) (p : PInst) (b' : Builder)
    (h : addField env st b f = .ok (p, b')) :
    (∀ c : Builder, (build b).proxiedParsers c = c.parsers) ∧
    (build b).proxiedParsers b' = dictInsert b.parsers f.name p ∧
    dictLookup ((build b).proxiedParsers b') f.name = some p := by
  refine ⟨fun c => rfl, ?_, ?_⟩
  · show b'.parsers = dictInsert b.parsers f.name p
    cases hp : fieldsGetParser f with
    | some q =>
        simp only [addField, hp] at h
        obtain ⟨hq, hb⟩ := Prod.mk.inj (Except.ok.inj h)
        rw [← hb, ← hq]
    | none =>
        simp only [addField, hp] at h
        cases hg : getParser env st (f.type.getD (.plain env.strId)) with
        | error e => rw [hg] at h; exact absurd h (by simp)
        | ok desc =>
            rw [hg] at h
            obtain ⟨hq, hb⟩ := Prod.mk.inj (Except.ok.inj h)
            rw [← hb, ← hq]
  · show dictLookup b'.parsers f.name = some p
    cases hp : fieldsGetParser f with
    | some q =>
        simp only [addField, hp] at h
        obtain ⟨hq, hb⟩ := Prod.mk.inj (Except.ok.inj h)
        rw [← hb, ← hq]
        exact dictLookup_insert_self ..
    | none =>
        simp only [addField, hp] at h
        cases hg : getParser env st (f.type.getD (.plain env.strId)) with
        | error e => rw [hg] at h; exact absurd h (by simp)
        | ok desc =>
            rw [hg] at h
            obtain ⟨hq, hb⟩ := Prod.mk.inj (Except.ok.inj h)
            rw [← hb, ← hq]
            exact dictLookup_insert_self ..

/-- Witness for the amended C4 at the concrete post-`build` `add_field` of
the counterexample. -/
theorem C4_build_returns_live_view_witness :
    (∀ c : Builder,
      (build ⟨[("a", ⟨50, .defaultOf 70⟩)], 0⟩).proxiedParsers c = c.parsers) ∧
    (build ⟨[("a", ⟨50, .defaultOf 70⟩)], 0⟩).proxiedParsers
        ⟨[("a", ⟨50, .defaultOf 70⟩), ("b", ⟨51, .defaultOf 71⟩)], 0⟩ =
      dictInsert [("a", ⟨50, .defaultOf 70⟩)] "b" ⟨51, .defaultOf 71⟩ ∧
    dictLookup ((build ⟨[("a", ⟨50, .defaultOf 70⟩)], 0⟩).proxiedParsers
      ⟨[("a", ⟨50, .defaultOf 70⟩), ("b", ⟨51, .defaultOf 71⟩)], 0⟩) "b" =
      some ⟨51, .defaultOf 71⟩ :=
  C4_build_returns_live_view envW stW ⟨[("a", ⟨50, .defaultOf 70⟩)], 0⟩
    ⟨"b", none, some ⟨51, .defaultOf 71⟩⟩ ⟨51, .defaultOf 71⟩
    ⟨[("a", ⟨50, .defaultOf 70⟩), ("b", ⟨51, .defaultOf 71⟩)], 0⟩ rfl

/-! ## C7/C8 — factory loads -/

theorem loadsKwargs_all_ok {σ ε α κ : Type} (fac : RTFactory σ ε α κ)
    (src : σ) (params : List (String × String)) (f : String → String → α)
    (h : ∀ kv ∈ params, kv.2 ≠ "" →
      ∃ p, dictLookup fac.parsers kv.1 = some p ∧
        p.loads src kv.2 = .ok (f kv.1 kv.2)) :
    loadsKwargs fac src params =
      .ok ((params.filter (fun kv => decide (kv.2 ≠ ""))).map
        (fun kv => (kv.1, f kv.1 kv.2))) := by
  induction params with
  | nil => rfl
  | cons kv rest ih =>
      obtain ⟨param, value⟩ := kv
      have hrest := ih (fun kv hkv => h kv (List.mem_cons_of_mem _ hkv))
      by_cases hv : value = ""
      · subst hv
        simp only [loadsKwargs, if_pos rfl, hrest, List.filter]
        simp
      · obtain ⟨p, hp, hl⟩ :=
          h (param, value) (List.mem_cons_self _ _) hv
        simp only [loadsKwargs, if_neg hv, RTFactory.loadsParam, hp, hl, hrest,
          List.filter]
        simp [hv]

/-- Claim C7: `factory.loads` decodes exactly the non-empty entries of the raw
field mapping through the corresponding field codecs, omits the empty ones
from the keyword mapping (so the component's own default applies), and
constructs the component from the resulting keyword values. -/
theorem C7_loads_nonempty_entries {σ ε α κ : Type} (fac : RTFactory σ ε α κ)
    (src : σ) (params : List (String × String)) (f : String → String → α)
    (h : ∀ kv ∈ params, kv.2 ≠ "" →
      ∃ p, dictLookup fac.parsers kv.1 = some p ∧
        p.loads src kv.2 = .ok (f kv.1 kv.2)) :
    fac.loads src params =
      .ok (fac.component ((params.filter (fun kv => decide (kv.2 ≠ ""))).map
        (fun kv => (kv.1, f kv.1 kv.2)))) := by
  unfold RTFactory.loads
  rw [loadsKwargs_all_ok fac src params f h]

/-- Witness for C7: the empty-valued entry `b` is omitted from the keyword
mapping handed to the component; the non-empty entry `a` is decoded. -/
theorem C7_loads_nonempty_entries_witness :
    facW.loads () [("a", "1"), ("b", "")] = .ok [("a", "1")] :=
  (C7_loads_nonempty_entries facW () [("a", "1"), ("b", "")] (fun _ v => v)
    (by
      intro kv hkv hne
      simp only [List.mem_cons, List.not_mem_nil, or_false] at hkv
      rcases hkv with h1 | h1
      · subst h1
        exact ⟨⟨fun _ s => .ok s⟩, rfl, rfl⟩
      · subst h1
        exact absurd rfl hne)).trans rfl

/-- Claim C8: when a field codec's `loads` raises, `factory.loads` propagates
that first error: entries before the failing one may decode, the failing
entry's error becomes the result whatever raw entries follow (none of them
is decoded), and no component is constructed — the result is the error, not
an `ok`. -/
theorem C8_first_error_aborts {σ ε α κ : Type} (fac : RTFactory σ ε α κ)
    (src : σ) (pre : List (String × String)) (k v : String)
    (rest : List (String × String)) (e : ε) (pk : RTParser σ ε α)
    (hpre : ∀ kv ∈ pre, kv.2 ≠ "" →
      ∃ p y, dictLookup fac.parsers kv.1 = some p ∧ p.loads src kv.2 = .ok y)
    (hv : v ≠ "")
    (hk : dictLookup fac.parsers k = some pk)
    (he : pk.loads src v = .error e) :
    fac.loads src (pre ++ (k, v) :: rest) = .error (.codec e) := by
  have hkw : loadsKwargs fac src (pre ++ (k, v) :: rest) = .error (.codec e) := by
    induction pre with
    | nil =>
        simp only [List.nil_append, loadsKwargs, if_neg hv,
          RTFactory.loadsParam, hk, he]
    | cons kv0 rest0 ih =>
        obtain ⟨p0, v0⟩ := kv0
        have hrest0 := ih (fun kv hkv => hpre kv (List.mem_cons_of_mem _ hkv))
        by_cases hv0 : v0 = ""
        · subst hv0
          simpa [loadsKwargs] using hrest0
        · obtain ⟨p, y, hp, hl⟩ :=
            hpre (p0, v0) (List.mem_cons_self _ _) hv0
          simp only [List.cons_append, loadsKwargs, if_neg hv0,
            RTFactory.loadsParam, hp, hl, List.append_eq, hrest0]
  unfold RTFactory.loads
  rw [hkw]

/-- Witness for C8: field `k`'s codec fails; the trailing entry `z` has *no*
registered codec at all (decoding it would raise `KeyError`), yet the result
is the codec error of `k` — later fields are never decoded and no component
is produced. -/
theorem C8_first_error_aborts_witness :
    facW.loads () [("a", "1"), ("k", "2"), ("z", "3")] = .error (.codec ()) :=
  C8_first_error_aborts facW () [("a", "1")] "k" "2" [("z", "3")] ()
    ⟨fun _ _ => .error ()⟩
    (by
      intro kv hkv hne
      simp only [List.mem_cons, List.not_mem_nil, or_false] at hkv
      subst hkv
      exact ⟨⟨fun _ s => .ok s⟩, "1", rfl, rfl⟩)
    (by decide) rfl rfl

/-! ## C9 — enum codec policy selection -/

/-- Claim C9: for a (non-flag) enum whose members share one value type, the
default `store_by_value` is `issubclass(value_type, int)` — true exactly for
integer value types — and an explicit `store_by_value` is respected; for
heterogeneous member value types with `store_by_value` not forced to true,
the codec stores by name with a `str` inner scalar codec; for heterogeneous
member value types with `store_by_value=True`, construction fails fast. -/
theorem C9_enum_policy :
    (∀ (env : ClassEnv) (st : Registry) (e : PyEnumClass) (d : ParserDesc),
      e.isFlag = false → e.memberTypeAttr = none →
      e.restMemberTypes.all (fun t => t == e.firstMemberType) = true →
      getParser env st (.plain e.firstMemberType) = .ok d →
      enumParserInit env st e none =
        .ok ⟨env.issub e.firstMemberType env.intId, e.firstMemberType, d⟩) ∧
    (∀ (env : ClassEnv) (st : Registry) (e : PyEnumClass) (b : Bool)
        (d : ParserDesc),
      e.isFlag = false → e.memberTypeAttr = none →
      e.restMemberTypes.all (fun t => t == e.firstMemberType) = true →
      getParser env st (.plain e.firstMemberType) = .ok d →
      enumParserInit env st e (some b) = .ok ⟨b, e.firstMemberType, d⟩) ∧
    (∀ (env : ClassEnv) (st : Registry) (e : PyEnumClass) (sbv : Option Bool)
        (d : ParserDesc),
      e.isFlag = false → e.memberTypeAttr = none →
      e.restMemberTypes.all (fun t => t == e.firstMemberType) = false →
      sbv ≠ some true →
      getParser env st (.plain env.strId) = .ok d →
      enumParserInit env st e sbv = .ok ⟨false, env.strId, d⟩) ∧
    (∀ (env : ClassEnv) (st : Registry) (e : PyEnumClass),
      e.isFlag = false → e.memberTypeAttr = none →
      e.restMemberTypes.all (fun t => t == e.firstMemberType) = false →
      enumParserInit env st e (some true) = .error .heterogeneousByValue) := by
  refine ⟨?_, ?_, ?_, ?_⟩
  · intro env st e d hf ha hall hgp
    simp [enumParserInit, getEnumType, hf, ha, hall, hgp]
  · intro env st e b d hf ha hall hgp
    simp [enumParserInit, getEnumType, hf, ha, hall, hgp]
  · intro env st e sbv d hf ha hall hsbv hgp
    cases sbv with
    | none => simp [enumParserInit, getEnumType, hf, ha, hall, hgp]
    | some b =>
        cases b with
        | true => exact absurd rfl hsbv
        | false => simp [enumParserInit, getEnumType, hf, ha, hall, hgp]
  · intro env st e hf ha hall
    simp [enumParserInit, getEnumType, hf, ha, hall]

/-- Witness for C9 at concrete enums: an all-`int` enum defaults to storing
by value (`issubclass(int, int)`), respects an explicit `False`, a
heterogeneous enum (`int` then `str` members) stores by name with the `str`
codec, and forcing `store_by_value=True` on it raises. -/
theorem C9_enum_policy_witness :
    enumParserInit envW stW ⟨false, none, 0, [0, 0]⟩ none =
      .ok ⟨true, 0, .defaultOf 70⟩ ∧
    enumParserInit envW stW ⟨false, none, 0, [0, 0]⟩ (some false) =
      .ok ⟨false, 0, .defaultOf 70⟩ ∧
    enumParserInit envW stW ⟨false, none, 0, [1]⟩ none =
      .ok ⟨false, 1, .defaultOf 71⟩ ∧
    enumParserInit envW stW ⟨false, none, 0, [1]⟩ (some true) =
      .error .heterogeneousByValue :=
  ⟨(C9_enum_policy.1 envW stW ⟨false, none, 0, [0, 0]⟩ (.defaultOf 70)
      rfl rfl rfl rfl).trans rfl,
   C9_enum_policy.2.1 envW stW ⟨false, none, 0, [0, 0]⟩ false (.defaultOf 70)
      rfl rfl rfl rfl,
   (C9_enum_policy.2.2.1 envW stW ⟨false, none, 0, [1]⟩ none (.defaultOf 71)
      rfl rfl rfl (by decide) rfl).trans rfl,
   C9_enum_policy.2.2.2 envW stW ⟨false, none, 0, [1]⟩ rfl rfl rfl⟩

end Disnake
